import Mathlib

/-!
Verification of the legacy (Frontier) transaction signer of polygon-edge
(`crypto/txsigner_frontier.go`) as a shallow embedding.

Byte strings are `List Nat` with every element `< 256`.  Go `*big.Int`
values produced by `SetBytes` are non-negative, so they are embedded as
`Nat`; a possibly-nil `*big.Int` field is `Option Nat`.  The external
elliptic-curve, digest and canonical-encoding primitives are abstracted
into an environment structure `ECEnv`, following the spec's contracts for
them (section 6).
-/

namespace FrontierSpec

/-- Big-endian byte representation of a natural number with no leading
zeros, the embedding of Go `big.Int.Bytes()` (which returns the empty
slice for zero).  Written with structural fuel so that it evaluates by
kernel reduction. -/
def natToBytesBEAux : Nat → Nat → List Nat
  | 0, _ => []
  | _ + 1, 0 => []
  | fuel + 1, n + 1 => natToBytesBEAux fuel ((n + 1) / 256) ++ [(n + 1) % 256]

/-- Big-endian minimal byte representation of a natural number. -/
def natToBytesBE (n : Nat) : List Nat :=
  natToBytesBEAux n n

/-- Interpretation of a big-endian byte string as a natural number, the
embedding of Go `big.Int.SetBytes`. -/
def natFromBytesBE (l : List Nat) : Nat :=
  l.foldl (fun a b => a * 256 + b) 0

/-- Left-pad a byte string with zeros to length `n` (no-op when already
at least that long), as done by the 65-byte signature reassembly. -/
def leftPad (n : Nat) (l : List Nat) : List Nat :=
  List.replicate (n - l.length) 0 ++ l

/-- Modelled from the spec: the Transaction record of the data model
(section 3) — nonce, gas price, gas limit, optional recipient, value,
payload bytes and the signature triple V, R, S, each an arbitrary
precision integer that is initially absent.  The Go struct
`types.Transaction` is not part of the excerpt. -/
structure Transaction where
  Nonce : Nat
  GasPrice : Nat
  Gas : Nat
  To : Option (List Nat)
  Value : Nat
  Input : List Nat
  V : Option Nat
  R : Option Nat
  S : Option Nat
deriving DecidableEq, Repr

/-- Error kinds of the signing core (spec section 7). -/
inductive SigError where
  | InvalidSignature
  | SigningFailure
  | RecoveryFailure
deriving DecidableEq, Repr

/-- Fields handed to the canonical (RLP-style) encoder when hashing a
transaction, mirroring the arena values built by `calcTxHash`. -/
inductive RField where
  | uintF : Nat → RField
  | bigF : Nat → RField
  | bytesF : List Nat → RField
  | nullF : RField

/-- The external primitives consumed as black boxes (spec section 6):
the EC sign/recover pair, the public key of a private key, the digest
primitive, and the digest of the canonical encoding of a field list. -/
structure ECEnv where
  sign : Nat → List Nat → Option (List Nat)
  recover : List Nat → List Nat → Option (List Nat)
  pubkey : Nat → List Nat
  keccak : List Nat → List Nat
  keccakRlp : List RField → List Nat

/-- Modelled from the spec: Address construction takes the low 20 bytes
of its input, zero-padding shorter inputs on the left
(`types.BytesToAddress` is not part of the excerpt). -/
def bytesToAddress (b : List Nat) : List Nat :=
  List.replicate (20 - min b.length 20) 0 ++ b.drop (b.length - min b.length 20)

/-- Modelled from the spec: the Transaction Hasher (section 4.1) builds
the canonical field list — nonce, gas price, gas limit,
recipient-or-empty, value, payload, and only for a non-zero chain
identifier the chain identifier plus two zero placeholders — serializes
it with the canonical encoder and reduces it with the digest primitive
(`calcTxHash` is not part of the excerpt). -/
def calcTxHash (env : ECEnv) (tx : Transaction) (chainID : Nat) : List Nat :=
  env.keccakRlp
    ([RField.uintF tx.Nonce,
      RField.bigF tx.GasPrice,
      RField.uintF tx.Gas,
      (match tx.To with
       | none => RField.nullF
       | some a => RField.bytesF a),
      RField.bigF tx.Value,
      RField.bytesF tx.Input] ++
     (if chainID ≠ 0 then
        [RField.uintF chainID, RField.uintF 0, RField.uintF 0]
      else []))

/-- `FrontierSigner.Hash`: wrapper for `calcTxHash` with chain
identifier 0. -/
def Hash (env : ECEnv) (tx : Transaction) : List Nat :=
  calcTxHash env tx 0

/-- The V handling inside `FrontierSigner.Sender`: `refV` starts at 0,
is set from `tx.V`'s bytes when V is present, 27 is subtracted, and the
result is truncated by Go's `byte(refV.Int64())` — the low 8 bits of
the two's-complement value, i.e. `(refV) mod 256` with a non-negative
result. -/
def decodeParityByte (v : Option Nat) : Nat :=
  ((((v.getD 0 : Nat) : Int) - 27) % 256).toNat

/-- Modelled from the spec: the shared signature reassembly helper
(`encodeSignature`, not part of the excerpt).  It fails with
`InvalidSignature` when R or S is absent, zero-length when serialized,
or exceeds 32 bytes (section 4.4 step 2), or when the decoded parity is
not 0 or 1 (the validation of section 4.2); otherwise it left-pads R
and S to 32 bytes each and appends the parity byte. -/
def encodeSignature (r s : Option Nat) (v : Nat) : Except SigError (List Nat) :=
  match r, s with
  | some rv, some sv =>
    if 1 < v ∨ natToBytesBE rv = [] ∨ 32 < (natToBytesBE rv).length ∨
        natToBytesBE sv = [] ∨ 32 < (natToBytesBE sv).length then
      Except.error SigError.InvalidSignature
    else
      Except.ok (leftPad 32 (natToBytesBE rv) ++ leftPad 32 (natToBytesBE sv) ++ [v])
  | _, _ => Except.error SigError.InvalidSignature

/-- Address of an uncompressed public key: digest of the key with its
fixed-format first byte removed, truncated to the low 20 bytes
(`Keccak256(pub[1:])[12:]`). -/
def pubkeyToAddress (env : ECEnv) (pub : List Nat) : List Nat :=
  bytesToAddress ((env.keccak (pub.drop 1)).drop 12)

/-- `FrontierSigner.Sender`: decode V, reassemble the 65-byte
signature, recover the public key from the digest, and derive the
address.  A failure of the EC recovery primitive is the
`RecoveryFailure` error kind. -/
def Sender (env : ECEnv) (tx : Transaction) : Except SigError (List Nat) :=
  match encodeSignature tx.R tx.S (decodeParityByte tx.V) with
  | Except.error e => Except.error e
  | Except.ok sig =>
    match env.recover (Hash env tx) sig with
    | none => Except.error SigError.RecoveryFailure
    | some pub => Except.ok (pubkeyToAddress env pub)

/-- `FrontierSigner.CalculateV`: the V value for pre-EIP155
transactions, the bytes of `parity + 27`. -/
def CalculateV (parity : Nat) : List Nat :=
  natToBytesBE (parity + 27)

/-- `FrontierSigner.SignTx`: copy the transaction, hash it, sign the
digest with the EC primitive, and write R, S, V back onto the copy.
The EC contract fixes the signature at 65 bytes (`R ‖ S ‖ parity`); a
failure of the primitive is the `SigningFailure` error kind. -/
def SignTx (env : ECEnv) (tx : Transaction) (k : Nat) : Except SigError Transaction :=
  match env.sign k (Hash env tx) with
  | none => Except.error SigError.SigningFailure
  | some sig =>
    Except.ok
      { tx with
        R := some (natFromBytesBE (sig.take 32))
        S := some (natFromBytesBE ((sig.drop 32).take 32))
        V := some (natFromBytesBE (CalculateV (sig.getD 64 0))) }

/-- Pointer-level rendering of `SignTx` for the frame property: the
heap is a list of transactions and a caller's `*types.Transaction` is
an index into it.  The body reads the pointee, allocates `tx.Copy()`
as a fresh cell, and performs all field writes on that fresh cell,
returning its index on success. -/
def SignTxHeap (env : ECEnv) (h : List Transaction) (ref : Nat) (k : Nat) :
    List Transaction × Option Nat :=
  match h.get? ref with
  | none => (h, none)
  | some tx =>
    match SignTx env tx k with
    | Except.error _ => (h ++ [tx], none)
    | Except.ok tx2 => ((h ++ [tx]).set h.length tx2, some h.length)

/-! Lemmas about the byte-level helpers. -/

lemma natToBytesBEAux_fuel : ∀ fuel n, n ≤ fuel →
    natToBytesBEAux fuel n = natToBytesBEAux n n := by
  intro fuel
  induction fuel using Nat.strong_induction_on with
  | _ fuel ih =>
    intro n hn
    match fuel, n with
    | 0, n =>
      interval_cases n
      rfl
    | fuel + 1, 0 => rfl
    | fuel + 1, m + 1 =>
      have hq : (m + 1) / 256 ≤ m := by
        have := Nat.div_lt_self (Nat.succ_pos m) (by norm_num : (1:Nat) < 256)
        omega
      show natToBytesBEAux fuel ((m + 1) / 256) ++ _ =
        natToBytesBEAux m ((m + 1) / 256) ++ _
      rw [ih fuel (by omega) _ (by omega), ih m (by omega) _ hq]

lemma natToBytesBE_eq (n : Nat) (h : n ≠ 0) :
    natToBytesBE n = natToBytesBE (n / 256) ++ [n % 256] := by
  obtain ⟨m, rfl⟩ := Nat.exists_eq_succ_of_ne_zero h
  show natToBytesBEAux (m + 1) (m + 1) = _
  have hq : (m + 1) / 256 ≤ m := by
    have := Nat.div_lt_self (Nat.succ_pos m) (by norm_num : (1:Nat) < 256)
    omega
  show natToBytesBEAux m ((m + 1) / 256) ++ _ = _
  rw [natToBytesBEAux_fuel m ((m + 1) / 256) hq]
  rfl

lemma natToBytesBE_eq_nil (n : Nat) : natToBytesBE n = [] ↔ n = 0 := by
  constructor
  · intro h
    by_contra hn
    rw [natToBytesBE_eq n hn] at h
    simp at h
  · rintro rfl
    rfl

lemma foldl_bytes_eq (l : List Nat) : ∀ a : Nat,
    l.foldl (fun a b => a * 256 + b) a = a * 256 ^ l.length + natFromBytesBE l := by
  induction l with
  | nil => intro a; simp [natFromBytesBE]
  | cons b rest ih =>
    intro a
    have hcons : natFromBytesBE (b :: rest) =
        b * 256 ^ rest.length + natFromBytesBE rest := by
      show rest.foldl _ (0 * 256 + b) = _
      rw [ih (0 * 256 + b)]
      ring
    show rest.foldl _ (a * 256 + b) = _
    rw [ih (a * 256 + b), hcons, List.length_cons]
    ring

lemma natFromBytesBE_cons (b : Nat) (rest : List Nat) :
    natFromBytesBE (b :: rest) = b * 256 ^ rest.length + natFromBytesBE rest := by
  show rest.foldl _ (0 * 256 + b) = _
  rw [foldl_bytes_eq rest (0 * 256 + b)]
  ring

lemma natFromBytesBE_lt (l : List Nat) (h : ∀ b ∈ l, b < 256) :
    natFromBytesBE l < 256 ^ l.length := by
  induction l with
  | nil => simp [natFromBytesBE]
  | cons b rest ih =>
    have hb : b < 256 := h b (List.mem_cons_self b rest)
    have hr := ih (fun x hx => h x (List.mem_cons_of_mem b hx))
    rw [natFromBytesBE_cons, List.length_cons, pow_succ]
    calc b * 256 ^ rest.length + natFromBytesBE rest
        < b * 256 ^ rest.length + 256 ^ rest.length := by omega
      _ = (b + 1) * 256 ^ rest.length := by ring
      _ ≤ 256 * 256 ^ rest.length := Nat.mul_le_mul_right _ (by omega)
      _ = 256 ^ rest.length * 256 := by ring

lemma natToBytesBE_length_le (n k : Nat) (h : n < 256 ^ k) :
    (natToBytesBE n).length ≤ k := by
  induction n using Nat.strong_induction_on generalizing k with
  | _ n ih =>
    by_cases hn : n = 0
    · subst hn
      simp [natToBytesBE, natToBytesBEAux]
    · have hk : k ≠ 0 := by
        rintro rfl
        simp at h
        omega
      obtain ⟨k', rfl⟩ := Nat.exists_eq_succ_of_ne_zero hk
      rw [natToBytesBE_eq n hn]
      have hdiv : n / 256 < 256 ^ k' := by
        rw [Nat.div_lt_iff_lt_mul (by norm_num : (0:Nat) < 256)]
        calc n < 256 ^ (k' + 1) := h
          _ = 256 ^ k' * 256 := by ring
      have := ih (n / 256) (Nat.div_lt_self (Nat.pos_of_ne_zero hn) (by norm_num)) k' hdiv
      simp only [List.length_append, List.length_singleton]
      omega

lemma lt_pow_natToBytesBE_length (n : Nat) :
    n < 256 ^ (natToBytesBE n).length := by
  induction n using Nat.strong_induction_on with
  | _ n ih =>
    by_cases hn : n = 0
    · subst hn
      simp [natToBytesBE, natToBytesBEAux]
    · rw [natToBytesBE_eq n hn]
      have hdiv := ih (n / 256) (Nat.div_lt_self (Nat.pos_of_ne_zero hn) (by norm_num))
      simp only [List.length_append, List.length_singleton]
      have hpow : (256:Nat) ^ ((natToBytesBE (n / 256)).length + 1) =
          256 * 256 ^ (natToBytesBE (n / 256)).length := by ring
      rw [hpow]
      omega

lemma natFromBytesBE_natToBytesBE (n : Nat) :
    natFromBytesBE (natToBytesBE n) = n := by
  induction n using Nat.strong_induction_on with
  | _ n ih =>
    by_cases hn : n = 0
    · subst hn; rfl
    · rw [natToBytesBE_eq n hn]
      have : natFromBytesBE (natToBytesBE (n / 256) ++ [n % 256]) =
          natFromBytesBE (natToBytesBE (n / 256)) * 256 + n % 256 := by
        unfold natFromBytesBE
        rw [List.foldl_append]
        rfl
      rw [this, ih (n / 256) (Nat.div_lt_self (Nat.pos_of_ne_zero hn) (by norm_num))]
      omega

lemma natToBytesBE_foldl (l : List Nat) (h : ∀ b ∈ l, b < 256) : ∀ v : Nat, v ≠ 0 →
    natToBytesBE (l.foldl (fun a b => a * 256 + b) v) = natToBytesBE v ++ l := by
  induction l with
  | nil => intro v _; simp
  | cons b rest ih =>
    intro v hv
    have hb : b < 256 := h b (List.mem_cons_self b rest)
    have hstep : natToBytesBE (v * 256 + b) = natToBytesBE v ++ [b] := by
      rw [natToBytesBE_eq (v * 256 + b) (by positivity)]
      have h1 : (v * 256 + b) / 256 = v := by omega
      have h2 : (v * 256 + b) % 256 = b := by omega
      rw [h1, h2]
    show natToBytesBE (rest.foldl _ (v * 256 + b)) = _
    rw [ih (fun x hx => h x (List.mem_cons_of_mem b hx)) (v * 256 + b) (by positivity),
      hstep, List.append_assoc]
    rfl

lemma natToBytesBE_natFromBytesBE (l : List Nat) (h : ∀ b ∈ l, b < 256) :
    natToBytesBE (natFromBytesBE l) = l.dropWhile (fun b => b == 0) := by
  induction l with
  | nil => rfl
  | cons b rest ih =>
    by_cases hb : b = 0
    · subst hb
      have h1 : natFromBytesBE (0 :: rest) = natFromBytesBE rest := by
        show rest.foldl _ (0 * 256 + 0) = rest.foldl _ 0
        norm_num
      have h2 : (0 :: rest).dropWhile (fun b => b == 0) =
          rest.dropWhile (fun b => b == 0) := by
        rw [List.dropWhile_cons_of_pos]
        simp
      rw [h1, h2, ih (fun x hx => h x (List.mem_cons_of_mem 0 hx))]
    · have hblt : b < 256 := h b (List.mem_cons_self b rest)
      have h1 : natFromBytesBE (b :: rest) = rest.foldl (fun a b => a * 256 + b) b := by
        show rest.foldl _ (0 * 256 + b) = _
        norm_num
      have h2 : (b :: rest).dropWhile (fun b => b == 0) = b :: rest := by
        rw [List.dropWhile_cons_of_neg]
        simp [hb]
      have hsingle : natToBytesBE b = [b] := by
        rw [natToBytesBE_eq b hb]
        have h3 : b / 256 = 0 := by omega
        have h4 : b % 256 = b := by omega
        rw [h3, h4]
        rfl
      rw [h1, h2, natToBytesBE_foldl rest (fun x hx => h x (List.mem_cons_of_mem b hx)) b hb,
        hsingle]
      rfl

lemma leftPad_dropWhile (l : List Nat) :
    leftPad l.length (l.dropWhile (fun b => b == 0)) = l := by
  have h1 : l.takeWhile (fun b => b == 0) ++ l.dropWhile (fun b => b == 0) = l :=
    List.takeWhile_append_dropWhile (fun b => b == 0) l
  have hlen : (l.takeWhile (fun b => b == 0)).length =
      l.length - (l.dropWhile (fun b => b == 0)).length := by
    have := congrArg List.length h1
    simp only [List.length_append] at this
    omega
  have hrep : l.takeWhile (fun b => b == 0) =
      List.replicate (l.length - (l.dropWhile (fun b => b == 0)).length) 0 := by
    apply List.eq_replicate_iff.2
    refine ⟨hlen, ?_⟩
    intro b hb
    have := List.mem_takeWhile_imp hb
    simpa using this
  unfold leftPad
  rw [← hrep, h1]

lemma leftPad_roundtrip (l : List Nat) (h : ∀ b ∈ l, b < 256) :
    leftPad l.length (natToBytesBE (natFromBytesBE l)) = l := by
  rw [natToBytesBE_natFromBytesBE l h, leftPad_dropWhile]

lemma decodeParityByte_some (v : Nat) :
    decodeParityByte (some v) = (v + 229) % 256 := by
  unfold decodeParityByte
  simp only [Option.getD_some]
  omega

lemma hash_update_vrs (env : ECEnv) (tx : Transaction)
    (v r s : Option Nat) :
    Hash env { tx with V := v, R := r, S := s } = Hash env tx := rfl

/-! Lemmas about the signature reassembly helper. -/

lemma encodeSignature_none_left (s : Option Nat) (v : Nat) :
    encodeSignature none s v = Except.error SigError.InvalidSignature := by
  cases s <;> rfl

lemma encodeSignature_none_right (r : Option Nat) (v : Nat) :
    encodeSignature r none v = Except.error SigError.InvalidSignature := by
  cases r <;> rfl

lemma encodeSignature_invalid (rv sv v : Nat)
    (h : rv = 0 ∨ sv = 0 ∨ 256 ^ 32 ≤ rv ∨ 256 ^ 32 ≤ sv ∨ 1 < v) :
    encodeSignature (some rv) (some sv) v = Except.error SigError.InvalidSignature := by
  have hC : 1 < v ∨ natToBytesBE rv = [] ∨ 32 < (natToBytesBE rv).length ∨
      natToBytesBE sv = [] ∨ 32 < (natToBytesBE sv).length := by
    rcases h with h | h | h | h | h
    · exact Or.inr (Or.inl ((natToBytesBE_eq_nil rv).2 h))
    · exact Or.inr (Or.inr (Or.inr (Or.inl ((natToBytesBE_eq_nil sv).2 h))))
    · refine Or.inr (Or.inr (Or.inl ?_))
      by_contra hlen
      push_neg at hlen
      have h1 := lt_pow_natToBytesBE_length rv
      have h2 : (256:Nat) ^ (natToBytesBE rv).length ≤ 256 ^ 32 :=
        Nat.pow_le_pow_right (by norm_num) hlen
      omega
    · refine Or.inr (Or.inr (Or.inr (Or.inr ?_)))
      by_contra hlen
      push_neg at hlen
      have h1 := lt_pow_natToBytesBE_length sv
      have h2 : (256:Nat) ^ (natToBytesBE sv).length ≤ 256 ^ 32 :=
        Nat.pow_le_pow_right (by norm_num) hlen
      omega
    · exact Or.inl h
  show (if _ then _ else _) = _
  rw [if_pos hC]

lemma encodeSignature_ok (rv sv v : Nat) (hv : v ≤ 1)
    (hr0 : 0 < rv) (hr1 : rv < 256 ^ 32) (hs0 : 0 < sv) (hs1 : sv < 256 ^ 32) :
    encodeSignature (some rv) (some sv) v =
      Except.ok (leftPad 32 (natToBytesBE rv) ++ leftPad 32 (natToBytesBE sv) ++ [v]) := by
  show (if _ then _ else _) = _
  rw [if_neg]
  rintro (h | h | h | h | h)
  · omega
  · have := (natToBytesBE_eq_nil rv).1 h
    omega
  · have := natToBytesBE_length_le rv 32 hr1
    omega
  · have := (natToBytesBE_eq_nil sv).1 h
    omega
  · have := natToBytesBE_length_le sv 32 hs1
    omega

lemma leftPad_length (n : Nat) (l : List Nat) (h : l.length ≤ n) :
    (leftPad n l).length = n := by
  unfold leftPad
  simp only [List.length_append, List.length_replicate]
  omega

/-! Concrete instantiation of the external primitives, used to evaluate
the theorems on explicit inputs. -/

/-- A fixed 65-byte signature: R = 1, S = 2, parity 1. -/
def toySig : List Nat :=
  List.replicate 31 0 ++ [1] ++ (List.replicate 31 0 ++ [2]) ++ [1]

/-- Primitives that always succeed and return fixed values, satisfying
the contracts of spec section 6 on the inputs used below. -/
def toyEnv : ECEnv where
  sign := fun _ _ => some toySig
  recover := fun _ _ => some [4, 9, 9]
  pubkey := fun _ => [4, 9, 9]
  keccak := fun _ => List.range 32
  keccakRlp := fun _ => List.range 32

/-- The concrete scenario of spec section 8: nonce 0, gas price 1, gas
21000, a fixed 20-byte recipient, value 0, empty payload, unsigned. -/
def toyTx : Transaction where
  Nonce := 0
  GasPrice := 1
  Gas := 21000
  To := some (List.replicate 20 7)
  Value := 0
  Input := []
  V := none
  R := none
  S := none

deriving instance DecidableEq for Except

/-! Claim theorems. -/

/-- C4: `FrontierSigner.Hash` returns the same digest for every pair of
transactions that agree on the unsigned fields (nonce, gas price, gas
limit, recipient, value, payload) but differ arbitrarily in V, R, S:
the hash input never mentions V, R or S. -/
theorem hash_ignores_vrs (env : ECEnv) (tx1 tx2 : Transaction)
    (hNonce : tx1.Nonce = tx2.Nonce) (hGasPrice : tx1.GasPrice = tx2.GasPrice)
    (hGas : tx1.Gas = tx2.Gas) (hTo : tx1.To = tx2.To)
    (hValue : tx1.Value = tx2.Value) (hInput : tx1.Input = tx2.Input) :
    Hash env tx1 = Hash env tx2 := by
  unfold Hash calcTxHash
  rw [hNonce, hGasPrice, hGas, hTo, hValue, hInput]

theorem hash_ignores_vrs_witness :
    Hash toyEnv { toyTx with V := some 28, R := some 1, S := some 2 } =
      Hash toyEnv toyTx :=
  hash_ignores_vrs toyEnv _ toyTx rfl rfl rfl rfl rfl rfl

/-- C5: the legacy hash is `calcTxHash` at chain identifier 0, and at
chain identifier 0 the canonical field list fed to the encoder consists
of exactly the six unsigned transaction fields — no chain identifier
appears in the hash input, whatever chain the node is on. -/
theorem hash_chain_id_zero (env : ECEnv) (tx : Transaction) :
    Hash env tx = calcTxHash env tx 0 ∧
    Hash env tx = env.keccakRlp
      [RField.uintF tx.Nonce, RField.bigF tx.GasPrice, RField.uintF tx.Gas,
       (match tx.To with | none => RField.nullF | some a => RField.bytesF a),
       RField.bigF tx.Value, RField.bytesF tx.Input] := by
  refine ⟨rfl, ?_⟩
  unfold Hash calcTxHash
  norm_num

/-- C3: a transaction whose V is absent or zero is rejected by Sender
with InvalidSignature, for every choice of the external primitives —
in particular the recovery primitive is never consulted. -/
theorem sender_rejects_unsigned (env : ECEnv) (tx : Transaction)
    (h : tx.V = none ∨ tx.V = some 0) :
    Sender env tx = Except.error SigError.InvalidSignature := by
  have hpar : decodeParityByte tx.V = 229 := by
    rcases h with h | h <;> rw [h] <;> decide
  have henc : encodeSignature tx.R tx.S (decodeParityByte tx.V) =
      Except.error SigError.InvalidSignature := by
    rw [hpar]
    cases tx.R with
    | none => exact encodeSignature_none_left _ _
    | some rv =>
      cases tx.S with
      | none => exact encodeSignature_none_right _ _
      | some sv => exact encodeSignature_invalid rv sv 229 (by norm_num)
  unfold Sender
  rw [henc]

theorem sender_rejects_unsigned_witness :
    Sender toyEnv toyTx = Except.error SigError.InvalidSignature :=
  sender_rejects_unsigned toyEnv toyTx (Or.inl rfl)

/-- C8: `FrontierSigner.CalculateV` at a parity byte in {0, 1} returns
the big-endian byte representation of 27 + parity, concretely the
single byte 27 + parity. -/
theorem calculateV_eq (p : Nat) (hp : p = 0 ∨ p = 1) :
    CalculateV p = natToBytesBE (27 + p) ∧ CalculateV p = [27 + p] := by
  constructor
  · unfold CalculateV
    rw [Nat.add_comm]
  · rcases hp with rfl | rfl <;> decide

theorem calculateV_eq_witness :
    CalculateV 1 = natToBytesBE (27 + 1) ∧ CalculateV 1 = [27 + 1] :=
  calculateV_eq 1 (Or.inr rfl)

/-- C2 as stated is false: V = 283 is outside {27, 28}, yet the V
handling inside Sender truncates 283 - 27 = 256 to the byte 0, the
reassembly accepts it, and Sender (here with the concrete primitives)
succeeds instead of failing with InvalidSignature. -/
theorem sender_v283_counterexample :
    decodeParityByte (some 283) = 0 ∧
    Sender toyEnv { toyTx with V := some 283, R := some 1, S := some 1 } =
      Except.ok (pubkeyToAddress toyEnv [4, 9, 9]) := by
  constructor
  · decide
  · rfl

/-- C2 amended: Sender's legacy V-decoding subtracts 27 and truncates
to the low byte of the two's-complement value, so (for well-formed R
and S) the reassembly succeeds exactly when V is congruent to 27 or 28
modulo 256: V = 27 and V = 28 succeed and V = 26, V = 0 and absent V
fail with InvalidSignature, but aliases such as V = 283 are also
accepted; the value is reduced modulo 256, never clamped. -/
theorem legacy_v_decode_mod256 (v r s : Nat)
    (hr0 : 0 < r) (hr1 : r < 256 ^ 32) (hs0 : 0 < s) (hs1 : s < 256 ^ 32) :
    (∃ sig, encodeSignature (some r) (some s) (decodeParityByte (some v)) =
        Except.ok sig) ↔ (v % 256 = 27 ∨ v % 256 = 28) := by
  rw [decodeParityByte_some]
  by_cases hv : (v + 229) % 256 ≤ 1
  · constructor
    · intro _
      omega
    · intro _
      exact ⟨_, encodeSignature_ok r s _ hv hr0 hr1 hs0 hs1⟩
  · constructor
    · rintro ⟨sig, hsig⟩
      rw [encodeSignature_invalid r s _
        (Or.inr (Or.inr (Or.inr (Or.inr (by omega)))))] at hsig
      cases hsig
    · intro hmod
      omega

theorem legacy_v_decode_mod256_witness :
    ((∃ sig, encodeSignature (some 1) (some 1) (decodeParityByte (some 28)) =
        Except.ok sig) ↔ (28 % 256 = 27 ∨ 28 % 256 = 28)) :=
  legacy_v_decode_mod256 28 1 1 (by norm_num) (by norm_num) (by norm_num) (by norm_num)

/-- C7: Sender fails with InvalidSignature when R or S is absent, has
value zero (the serialization of zero is zero-length, and 32 zero bytes
denote the same value), or needs more than 32 bytes; and whenever the
reassembly succeeds, the 65-byte signature is R and S left-padded to 32
bytes each, followed by the parity byte. -/
theorem encodeSignature_spec :
    (∀ (env : ECEnv) (tx : Transaction),
      (tx.R = none ∨ tx.S = none ∨ tx.R = some 0 ∨ tx.S = some 0 ∨
       (∃ rv, tx.R = some rv ∧ 256 ^ 32 ≤ rv) ∨
       (∃ sv, tx.S = some sv ∧ 256 ^ 32 ≤ sv)) →
      Sender env tx = Except.error SigError.InvalidSignature) ∧
    (∀ (r s v : Nat) (sig : List Nat),
      encodeSignature (some r) (some s) v = Except.ok sig →
      sig = leftPad 32 (natToBytesBE r) ++ leftPad 32 (natToBytesBE s) ++ [v] ∧
      sig.length = 65) := by
  constructor
  · intro env tx h
    have henc : encodeSignature tx.R tx.S (decodeParityByte tx.V) =
        Except.error SigError.InvalidSignature := by
      rcases h with h | h | h | h | ⟨rv, hR, hrv⟩ | ⟨sv, hS, hsv⟩
      · rw [h]
        exact encodeSignature_none_left _ _
      · rw [h]
        exact encodeSignature_none_right _ _
      · rw [h]
        cases tx.S with
        | none => exact encodeSignature_none_right _ _
        | some sv => exact encodeSignature_invalid 0 sv _ (Or.inl rfl)
      · rw [h]
        cases tx.R with
        | none => exact encodeSignature_none_left _ _
        | some rv => exact encodeSignature_invalid rv 0 _ (Or.inr (Or.inl rfl))
      · rw [hR]
        cases tx.S with
        | none => exact encodeSignature_none_right _ _
        | some sv =>
          exact encodeSignature_invalid rv sv _ (Or.inr (Or.inr (Or.inl hrv)))
      · rw [hS]
        cases tx.R with
        | none => exact encodeSignature_none_left _ _
        | some rv =>
          exact encodeSignature_invalid rv sv _ (Or.inr (Or.inr (Or.inr (Or.inl hsv))))
    unfold Sender
    rw [henc]
  · intro r s v sig hsig
    by_cases hcond : 1 < v ∨ natToBytesBE r = [] ∨ 32 < (natToBytesBE r).length ∨
        natToBytesBE s = [] ∨ 32 < (natToBytesBE s).length
    · have herr : encodeSignature (some r) (some s) v =
          Except.error SigError.InvalidSignature := by
        show (if _ then _ else _) = _
        rw [if_pos hcond]
      rw [herr] at hsig
      cases hsig
    · have heq : encodeSignature (some r) (some s) v =
          Except.ok (leftPad 32 (natToBytesBE r) ++ leftPad 32 (natToBytesBE s) ++ [v]) := by
        show (if _ then _ else _) = _
        rw [if_neg hcond]
      rw [heq] at hsig
      injection hsig with hval
      push_neg at hcond
      obtain ⟨hv, hrne, hrlen, hsne, hslen⟩ := hcond
      have hlr : (leftPad 32 (natToBytesBE r)).length = 32 := leftPad_length _ _ (by omega)
      have hls : (leftPad 32 (natToBytesBE s)).length = 32 := leftPad_length _ _ (by omega)
      refine ⟨hval.symm, ?_⟩
      rw [← hval]
      simp only [List.length_append, List.length_singleton, hlr, hls]

theorem encodeSignature_spec_witness :
    Sender toyEnv { toyTx with V := some 27, R := some 0, S := some 1 } =
      Except.error SigError.InvalidSignature ∧
    (toySig = leftPad 32 (natToBytesBE 1) ++ leftPad 32 (natToBytesBE 2) ++ [1] ∧
     toySig.length = 65) :=
  ⟨encodeSignature_spec.1 toyEnv _ (Or.inr (Or.inr (Or.inl rfl))),
   encodeSignature_spec.2 1 2 1 toySig (by decide)⟩

/-- C9: whenever Sender succeeds, the returned address is the low 20
bytes of the digest of the recovered public key with its first
(fixed-format prefix) byte removed — bytes 12 onward of the 32-byte
digest. -/
theorem sender_address_shape (env : ECEnv) (tx : Transaction) (a : List Nat)
    (h : Sender env tx = Except.ok a) :
    ∃ pub sig, encodeSignature tx.R tx.S (decodeParityByte tx.V) = Except.ok sig ∧
      env.recover (Hash env tx) sig = some pub ∧
      a = bytesToAddress ((env.keccak (pub.drop 1)).drop 12) := by
  unfold Sender at h
  cases henc : encodeSignature tx.R tx.S (decodeParityByte tx.V) with
  | error e =>
    rw [henc] at h
    cases h
  | ok sig =>
    rw [henc] at h
    have h2 : (match env.recover (Hash env tx) sig with
        | none => Except.error SigError.RecoveryFailure
        | some pub => Except.ok (pubkeyToAddress env pub)) = Except.ok a := h
    cases hrec : env.recover (Hash env tx) sig with
    | none =>
      rw [hrec] at h2
      cases h2
    | some pub =>
      rw [hrec] at h2
      injection h2 with hval
      exact ⟨pub, sig, rfl, hrec, hval.symm⟩

theorem sender_address_shape_witness :
    ∃ pub sig,
      encodeSignature (some 1) (some 1)
        (decodeParityByte (some 27)) = Except.ok sig ∧
      toyEnv.recover
        (Hash toyEnv { toyTx with V := some 27, R := some 1, S := some 1 }) sig =
        some pub ∧
      pubkeyToAddress toyEnv [4, 9, 9] =
        bytesToAddress ((toyEnv.keccak (pub.drop 1)).drop 12) :=
  sender_address_shape toyEnv { toyTx with V := some 27, R := some 1, S := some 1 }
    (pubkeyToAddress toyEnv [4, 9, 9]) rfl

/-- C10: when SignTx succeeds with a signature sig from the EC
primitive, the returned transaction's V is exactly 27 plus the parity
byte sig[64]; and when that parity byte is 0 or 1, the V handling of
Sender decodes the returned V back to exactly that parity. -/
theorem signtx_v_parity (env : ECEnv) (tx : Transaction) (k : Nat)
    (sig : List Nat) (tx2 : Transaction)
    (hsig : env.sign k (Hash env tx) = some sig)
    (htx2 : SignTx env tx k = Except.ok tx2) :
    tx2.V = some (27 + sig.getD 64 0) ∧
    (sig.getD 64 0 ≤ 1 → decodeParityByte tx2.V = sig.getD 64 0) := by
  unfold SignTx at htx2
  rw [hsig] at htx2
  injection htx2 with htx2
  subst htx2
  constructor
  · show some (natFromBytesBE (CalculateV (sig.getD 64 0))) = _
    unfold CalculateV
    rw [natFromBytesBE_natToBytesBE, Nat.add_comm]
  · intro hp
    show decodeParityByte (some (natFromBytesBE (CalculateV (sig.getD 64 0)))) = _
    unfold CalculateV
    rw [natFromBytesBE_natToBytesBE, decodeParityByte_some]
    omega

theorem signtx_v_parity_witness :
    ({ toyTx with R := some 1, S := some 2, V := some 28 } : Transaction).V =
      some (27 + toySig.getD 64 0) ∧
    (toySig.getD 64 0 ≤ 1 →
      decodeParityByte
        ({ toyTx with R := some 1, S := some 2, V := some 28 } : Transaction).V =
        toySig.getD 64 0) :=
  signtx_v_parity toyEnv toyTx 5 toySig
    { toyTx with R := some 1, S := some 2, V := some 28 } rfl rfl

/-- C6: the pointer-level SignTx leaves the caller's transaction cell
untouched whether it succeeds or fails, and on success hands back a
fresh cell, distinct from the caller's, holding the value-level SignTx
result with R, S and V populated. -/
theorem signtx_no_mutation (env : ECEnv) (hp : List Transaction) (ref k : Nat)
    (tx : Transaction) (href : hp.get? ref = some tx) :
    (SignTxHeap env hp ref k).1.get? ref = some tx ∧
    ∀ r2, (SignTxHeap env hp ref k).2 = some r2 →
      r2 ≠ ref ∧ ∃ tx2, SignTx env tx k = Except.ok tx2 ∧
        (SignTxHeap env hp ref k).1.get? r2 = some tx2 ∧
        tx2.R.isSome ∧ tx2.S.isSome ∧ tx2.V.isSome := by
  have hlt : ref < hp.length := by
    by_contra hge
    rw [List.get?_eq_none.2 (by omega)] at href
    cases href
  have hred : SignTxHeap env hp ref k =
      (match SignTx env tx k with
       | Except.error _ => (hp ++ [tx], none)
       | Except.ok tx2 => ((hp ++ [tx]).set hp.length tx2, some hp.length)) := by
    unfold SignTxHeap
    rw [href]
  rw [hred]
  cases hst : SignTx env tx k with
  | error e =>
    refine ⟨?_, ?_⟩
    · show (hp ++ [tx]).get? ref = some tx
      rw [List.get?_append hlt]
      exact href
    · intro r2 h2
      cases h2
  | ok tx2 =>
    refine ⟨?_, ?_⟩
    · show ((hp ++ [tx]).set hp.length tx2).get? ref = some tx
      rw [List.get?_set_ne tx2 (hp ++ [tx]) (by omega), List.get?_append hlt]
      exact href
    · intro r2 h2
      have h3 : some hp.length = some r2 := h2
      injection h3 with h3
      subst h3
      refine ⟨by omega, tx2, rfl, ?_, ?_⟩
      · show ((hp ++ [tx]).set hp.length tx2).get? hp.length = some tx2
        rw [List.get?_set_eq_of_lt tx2 (by simp)]
      · unfold SignTx at hst
        cases hsg : env.sign k (Hash env tx) with
        | none =>
          rw [hsg] at hst
          cases hst
        | some sig =>
          rw [hsg] at hst
          injection hst with hst
          rw [← hst]
          exact ⟨rfl, rfl, rfl⟩

theorem signtx_no_mutation_witness :
    (SignTxHeap toyEnv [toyTx] 0 5).1.get? 0 = some toyTx ∧
    ∀ r2, (SignTxHeap toyEnv [toyTx] 0 5).2 = some r2 →
      r2 ≠ 0 ∧ ∃ tx2, SignTx toyEnv toyTx 5 = Except.ok tx2 ∧
        (SignTxHeap toyEnv [toyTx] 0 5).1.get? r2 = some tx2 ∧
        tx2.R.isSome ∧ tx2.S.isSome ∧ tx2.V.isSome :=
  signtx_no_mutation toyEnv [toyTx] 0 5 toyTx rfl

lemma sender_eq_of (env : ECEnv) (tx : Transaction) (sg pub : List Nat)
    (h1 : encodeSignature tx.R tx.S (decodeParityByte tx.V) = Except.ok sg)
    (h2 : env.recover (Hash env tx) sg = some pub) :
    Sender env tx = Except.ok (pubkeyToAddress env pub) := by
  unfold Sender
  rw [h1]
  show (match env.recover (Hash env tx) sg with
    | none => Except.error SigError.RecoveryFailure
    | some pub => Except.ok (pubkeyToAddress env pub)) = _
  rw [h2]

/-- C1: for any private key and transaction, when the EC primitive
produces a well-formed 65-byte signature (byte values, nonzero R and S,
parity 0 or 1) and its recovery contract holds on that signature,
applying Sender to the transaction returned by SignTx succeeds and
yields exactly the address derived from the key's public key. -/
theorem frontier_sign_roundtrip (env : ECEnv) (tx : Transaction) (k : Nat)
    (sig : List Nat) (tx2 : Transaction)
    (hsig : env.sign k (Hash env tx) = some sig)
    (hlen : sig.length = 65)
    (hbytes : ∀ b ∈ sig, b < 256)
    (hpar : sig.getD 64 0 ≤ 1)
    (hr : 0 < natFromBytesBE (sig.take 32))
    (hs : 0 < natFromBytesBE ((sig.drop 32).take 32))
    (hrec : env.recover (Hash env tx) sig = some (env.pubkey k))
    (htx2 : SignTx env tx k = Except.ok tx2) :
    Sender env tx2 = Except.ok (pubkeyToAddress env (env.pubkey k)) := by
  unfold SignTx at htx2
  rw [hsig] at htx2
  injection htx2 with htx2
  subst htx2
  have hV : natFromBytesBE (CalculateV (sig.getD 64 0)) = sig.getD 64 0 + 27 := by
    unfold CalculateV
    rw [natFromBytesBE_natToBytesBE]
  have hdec : decodeParityByte (some (sig.getD 64 0 + 27)) = sig.getD 64 0 := by
    rw [decodeParityByte_some]
    omega
  have htake : (sig.take 32).length = 32 := by
    rw [List.length_take]
    omega
  have hdroptake : ((sig.drop 32).take 32).length = 32 := by
    rw [List.length_take, List.length_drop]
    omega
  have hbytes1 : ∀ b ∈ sig.take 32, b < 256 :=
    fun b hb => hbytes b (List.take_subset 32 sig hb)
  have hbytes2 : ∀ b ∈ (sig.drop 32).take 32, b < 256 :=
    fun b hb => hbytes b (List.drop_subset 32 sig (List.take_subset 32 (sig.drop 32) hb))
  have hrlt : natFromBytesBE (sig.take 32) < 256 ^ 32 := by
    have := natFromBytesBE_lt (sig.take 32) hbytes1
    rwa [htake] at this
  have hslt : natFromBytesBE ((sig.drop 32).take 32) < 256 ^ 32 := by
    have := natFromBytesBE_lt ((sig.drop 32).take 32) hbytes2
    rwa [hdroptake] at this
  have hpadr : leftPad 32 (natToBytesBE (natFromBytesBE (sig.take 32))) = sig.take 32 := by
    have := leftPad_roundtrip (sig.take 32) hbytes1
    rwa [htake] at this
  have hpads : leftPad 32 (natToBytesBE (natFromBytesBE ((sig.drop 32).take 32))) =
      (sig.drop 32).take 32 := by
    have := leftPad_roundtrip ((sig.drop 32).take 32) hbytes2
    rwa [hdroptake] at this
  have hdrop64 : sig.drop 64 = [sig.getD 64 0] := by
    have hlen64 : (sig.drop 64).length = 1 := by
      rw [List.length_drop]
      omega
    obtain ⟨b, hb⟩ := List.length_eq_one.1 hlen64
    have hget : sig.get? 64 = some b := by
      have h0 : (sig.drop 64).get? 0 = some b := by
        rw [hb]
        rfl
      rw [List.get?_drop] at h0
      exact h0
    have hgd : sig.getD 64 0 = b := by
      rw [List.getD_eq_get?, hget]
      rfl
    rw [hb, hgd]
  have hsplit : sig.take 32 ++ (sig.drop 32).take 32 ++ [sig.getD 64 0] = sig := by
    rw [← hdrop64]
    have e3 : (sig.drop 32).drop 32 = sig.drop 64 := List.drop_drop 32 32 sig
    rw [← e3, List.append_assoc, List.take_append_drop 32 (sig.drop 32),
      List.take_append_drop 32 sig]
  have htmp := encodeSignature_ok (natFromBytesBE (sig.take 32))
    (natFromBytesBE ((sig.drop 32).take 32)) (sig.getD 64 0) hpar hr hrlt hs hslt
  rw [hpadr, hpads, hsplit] at htmp
  refine sender_eq_of env _ sig (env.pubkey k) ?_ ?_
  · show encodeSignature (some (natFromBytesBE (sig.take 32)))
      (some (natFromBytesBE ((sig.drop 32).take 32)))
      (decodeParityByte (some (natFromBytesBE (CalculateV (sig.getD 64 0))))) =
      Except.ok sig
    rw [hV, hdec]
    exact htmp
  · exact hrec

theorem frontier_sign_roundtrip_witness :
    Sender toyEnv { toyTx with R := some 1, S := some 2, V := some 28 } =
      Except.ok (pubkeyToAddress toyEnv (toyEnv.pubkey 5)) :=
  frontier_sign_roundtrip toyEnv toyTx 5 toySig
    { toyTx with R := some 1, S := some 2, V := some 28 }
    rfl (by decide) (by decide) (by decide) (by decide) (by decide) rfl rfl

end FrontierSpec
